import Mathlib

/-
Verification of the markers plugin (src/src/plugin/markers/index.js) against
its natural-language specification.  The JavaScript code is shallowly embedded:
numbers are rationals, JS `undefined` is `Option.none`, JS truthiness of a
numeric field is being present and nonzero, and the mutable plugin object is
threaded as an explicit `PluginState`.  DOM rendering is not part of the
embedding; the only DOM-derived quantities the arithmetic of the plugin reads
(element scroll width, marker element width) are carried as marker attributes
supplied at creation time.  The deferred `setTimeout(..., 0)` deselection of
`_onMouseUp` is modelled by a `pendingDeselect` flag together with a `tick`
step that runs the queued callback.
-/

namespace Markers

/-- Constant `DEFAULT_FILL_COLOR` from the source. -/
def DEFAULT_FILL_COLOR : String := "#D8D8D8"

/-- Constant `DEFAULT_POSITION` from the source. -/
def DEFAULT_POSITION : String := "bottom"

/-- Constant `DEFAULT_TEXTPOSITION` from the source. -/
def DEFAULT_TEXTPOSITION : String := "right"

/-- Constant `MOUSEMOVE_FREQUENCYMS` from the source (50 ms throttle floor). -/
def MOUSEMOVE_FREQUENCYMS : ℚ := 50

/-- Field `this.markerWidth = 11` set in the constructor. -/
def markerWidth : ℚ := 11

/-- Field `this.markerLineWidth = 1` set in the constructor. -/
def markerLineWidth : ℚ := 1

/-- A stored marker record, as built by `add` / `_createMarkerElement`.
`elScrollWidth` stands for the DOM measurement `marker.el.scrollWidth` used by
`_updateMarkerPosition`; `elDraggable` records whether the mousedown listener
was attached to the marker element at creation time (it is attached exactly
when the marker was created draggable). -/
structure Marker where
  id : Option String
  time : ℚ
  label : Option String
  color : String
  position : String
  draggable : Bool
  textPosition : String
  lowerLimit : Option ℚ
  upperLimit : Option ℚ
  offset : ℚ
  elScrollWidth : ℚ
  elDraggable : Bool
deriving Repr, DecidableEq, Inhabited

/-- Parameters accepted by `add` (the `MarkerParams` typedef).  `time` is the
one required numeric field; every optional field is `none` when absent.
`markerElementWidth` models `params.markerElement.width` (the width of a
custom marker element, `none` when the default SVG pointer is used) and
`elScrollWidth` the scroll width the DOM reports for the created element. -/
structure MarkerParams where
  id : Option String := none
  time : ℚ := 0
  label : Option String := none
  color : Option String := none
  position : Option String := none
  draggable : Option Bool := none
  textPosition : Option String := none
  lowerLimit : Option ℚ := none
  upperLimit : Option ℚ := none
  markerElementWidth : Option ℚ := none
  elScrollWidth : ℚ := 0
deriving Repr, DecidableEq, Inhabited

/-- The fields an `update(options, index)` call may carry.  A `none` field is
a property absent from the options object, which `Object.assign` leaves
untouched on the stored marker. -/
structure UpdateOptions where
  id : Option String := none
  time : Option ℚ := none
  label : Option String := none
  color : Option String := none
  position : Option String := none
  draggable : Option Bool := none
  textPosition : Option String := none
  lowerLimit : Option ℚ := none
  upperLimit : Option ℚ := none
deriving Repr, DecidableEq, Inhabited

/-- The dynamic values the two parameters of `update(options, index)` can
receive at its call sites: a number, an options object, or `undefined` for an
omitted argument.  (The static wrapper `updateMarker` passes its arguments in
source order, which puts the numeric index into the `options` slot.) -/
inductive JVal where
  | num (q : ℚ)
  | obj (o : UpdateOptions)
  | undef
deriving Repr, DecidableEq, Inhabited

/-- JS truthiness of a `JVal`: 0 and `undefined` are falsy, every object is
truthy. -/
def jsTruthy : JVal → Bool
  | .num q => decide (q ≠ 0)
  | .obj _ => true
  | .undef => false

/-- JS `v < 0`: comparing a non-number converts it to NaN, and every NaN
comparison is false. -/
def jvLtZero : JVal → Bool
  | .num q => decide (q < 0)
  | _ => false

/-- JS `v > bound`: comparing a non-number converts it to NaN, and every NaN
comparison is false. -/
def jvGt (v : JVal) (bound : ℚ) : Bool :=
  match v with
  | .num q => decide (q > bound)
  | _ => false

/-- JS array indexing `markers[v]`: only a nonnegative integral number is a
valid array index; every other value (fractional number, object, undefined)
reads an absent property.  Returns the index when it denotes an existing
slot. -/
def jvArrayIdx (v : JVal) (len : ℕ) : Option ℕ :=
  match v with
  | .num q => if q.den = 1 ∧ 0 ≤ q.num ∧ q.num.toNat < len then some q.num.toNat else none
  | _ => none

/-- JS property read `v.id`: an object yields its `id` field, a number has no
`id` property (undefined). -/
def jvId : JVal → Option String
  | .obj o => o.id
  | _ => none

/-- JS loose equality `m.id == options.id` on two optional strings:
`undefined == undefined` is true, `undefined == string` is false. -/
def jsEqId (a b : Option String) : Bool :=
  match a, b with
  | some x, some y => x == y
  | none, none => true
  | _, _ => false

/-- JS `a || dflt` on an optional string: the default is used when the field
is absent or the empty string (the only falsy string). -/
def jsOrDefault (v : Option String) (dflt : String) : String :=
  match v with
  | some s => if s = "" then dflt else s
  | none => dflt

/-- The marker record built by `add` lines 177-189 together with the `offset`
assignment of `_createMarkerElement` lines 266-267:
`offset = (width - markerLineWidth) / 2` where `width` is the custom marker
element width if one was supplied and `this.markerWidth` otherwise.
`draggable = !!params.draggable`. -/
def mkMarker (p : MarkerParams) : Marker :=
  { id := p.id
    time := p.time
    label := p.label
    color := jsOrDefault p.color DEFAULT_FILL_COLOR
    position := jsOrDefault p.position DEFAULT_POSITION
    draggable := p.draggable.getD false
    textPosition := jsOrDefault p.textPosition DEFAULT_TEXTPOSITION
    lowerLimit := p.lowerLimit
    upperLimit := p.upperLimit
    offset := ((p.markerElementWidth.getD markerWidth) - markerLineWidth) / 2
    elScrollWidth := p.elScrollWidth
    elDraggable := p.draggable.getD false }

/-- `_checkLimits(time, marker)` lines 444-453.  Each bound is guarded by JS
truthiness (`marker.lowerLimit && ...`), so an absent bound or a bound equal
to 0 skips the comparison; the two checks run sequentially on `newTime`. -/
def checkLimits (time : ℚ) (marker : Marker) : ℚ :=
  let newTime :=
    match marker.lowerLimit with
    | some l => if l ≠ 0 ∧ time < l then l else time
    | none => time
  match marker.upperLimit with
  | some u => if u ≠ 0 ∧ newTime > u then u else newTime
  | none => newTime

/-- `_updateMarkerPosition(params)` lines 354-369, as the computed `left`
pixel value.  `duration = wavesurfer.getDuration()` and
`elementWidth = drawer.width / pixelRatio` are inputs of the model. -/
def updateMarkerPosition (marker : Marker) (duration elementWidth : ℚ) : ℚ :=
  let positionPct := min (marker.time / duration) 1
  let leftPx := elementWidth * positionPct - marker.offset
  if marker.textPosition = "left" then
    leftPx - marker.elScrollWidth + 1 * markerWidth
  else
    leftPx

/-- The time computed by the drag path, lines 397 and 422:
`drawer.handleEvent(event) * getDuration()` maps the normalized pointer
fraction back to a time.  (The spec calls this mapper `pixelToTime`.) -/
def pixelToTime (frac duration : ℚ) : ℚ := frac * duration

/-- The plugin instance state: the marker collection, the drag bookkeeping
fields of the constructor (`selectedMarker` as an index into `markers`,
`dragging`, `lastDragEvent`, `mouseEventsAdded`), the queued deferred
deselection, a counter of `_updateMarkerPositions` passes, and the timeline
geometry the host reports (`getDuration()` and `drawer.width / pixelRatio`). -/
structure PluginState where
  markers : List Marker
  selectedMarker : Option ℕ
  dragging : Bool
  lastDragEvent : ℚ
  mouseEventsAdded : Bool
  pendingDeselect : Bool
  repositions : ℕ
  duration : ℚ
  elementWidth : ℚ
deriving Repr, DecidableEq, Inhabited

/-- Notifications fired through `wavesurfer.fireEvent`, tagged with the index
of the marker they carry and the timestamp of the mouse event. -/
inductive WsEvent where
  | markerDrag (i : ℕ) (t : ℚ)
  | markerDrop (i : ℕ) (t : ℚ)
deriving Repr, DecidableEq, Inhabited

/-- `Object.assign(marker, options)`: every field present on the options
object overwrites the stored field; absent fields are untouched.  No limit
check is applied. -/
def assignMarker (m : Marker) (o : UpdateOptions) : Marker :=
  { m with
    id := match o.id with | some v => some v | none => m.id
    time := o.time.getD m.time
    label := match o.label with | some v => some v | none => m.label
    color := o.color.getD m.color
    position := o.position.getD m.position
    draggable := o.draggable.getD m.draggable
    textPosition := o.textPosition.getD m.textPosition
    lowerLimit := match o.lowerLimit with | some v => some v | none => m.lowerLimit
    upperLimit := match o.upperLimit with | some v => some v | none => m.upperLimit }

/-- `Object.assign(marker, options)` with a dynamic source: a number or
`undefined` source contributes no own enumerable properties, so the marker is
unchanged. -/
def jvAssign (m : Marker) (v : JVal) : Marker :=
  match v with
  | .obj o => assignMarker m o
  | _ => m

/-- The target-selection logic of `update(options, index)` lines 462-471:
a truthy `index` is range-checked (`index < 0 || index > length - 1` returns
early; both comparisons are false for a non-numeric index) and then used as
an array subscript; a falsy `index` (0 or omitted) falls back to
`markers.find(m => m.id == options.id)`.  The result is the position of the
found marker, `none` when the call is a silent no-op. -/
def updateTarget (markers : List Marker) (options index : JVal) : Option ℕ :=
  if jsTruthy index then
    if jvLtZero index || jvGt index ((markers.length : ℚ) - 1) then none
    else jvArrayIdx index markers.length
  else
    markers.findIdx? (fun m => jsEqId m.id (jvId options))

/-- `update(options, index)` lines 462-476: find the target marker, merge the
options into it with `Object.assign`, and trigger a reposition pass; a silent
no-op when no target is found. -/
def update (options index : JVal) (s : PluginState) : PluginState :=
  match updateTarget s.markers options index with
  | some i =>
      { s with
        markers := s.markers.set i (jvAssign ((s.markers[i]?).getD default) options)
        repositions := s.repositions + 1 }
  | none => s

/-- The static wrapper `updateMarker(index, options)` lines 79-84: it calls
`this.markers.update(index, options)`, so the numeric first argument lands in
the `options` parameter of `update` and the options object in its `index`
parameter. -/
def updateMarker (index : ℚ) (options : UpdateOptions) (s : PluginState) : PluginState :=
  update (JVal.num index) (JVal.obj options) s

/-- `add(params)` lines 176-200: build the marker, append it, trigger a
reposition pass, and attach the global mouse listeners when
`params.draggable && !this.mouseEventsAdded`. -/
def addMarker (p : MarkerParams) (s : PluginState) : PluginState :=
  let marker := mkMarker p
  let s1 := { s with markers := s.markers ++ [marker], repositions := s.repositions + 1 }
  if p.draggable.getD false = true ∧ s1.mouseEventsAdded = false then
    { s1 with mouseEventsAdded := true }
  else s1

/-- `remove(index)` lines 207-215: a no-op when the slot holds nothing,
otherwise splice the marker out (no reposition pass). -/
def removeMarker (index : ℕ) (s : PluginState) : PluginState :=
  { s with markers := s.markers.eraseIdx index }

/-- `clear()` lines 430-434: remove markers from the front until none are
left. -/
def clearMarkers (s : PluginState) : PluginState :=
  { s with markers := [] }

/-- The `mousedown` listener of `_createMarkerElement` lines 332-336: it is
attached only to markers created draggable, and records the pressed marker as
selected. -/
def markerMouseDown (i : ℕ) (s : PluginState) : PluginState :=
  if ((s.markers[i]?).map Marker.elDraggable).getD false = true then
    { s with selectedMarker := some i }
  else s

/-- `_onMouseMove(event)` lines 380-399: a no-op without a selected marker;
the first move starts dragging and fires `marker-drag`; later moves update
`lastDragEvent` unconditionally and fire `marker-drag` only when at least
`MOUSEMOVE_FREQUENCYMS` elapsed since the previous move; in every case the
clamped time is written into the selected marker and a reposition pass runs. -/
def onMouseMove (now frac : ℚ) (s : PluginState) : PluginState × List WsEvent :=
  match s.selectedMarker with
  | none => (s, [])
  | some i =>
    let m := (s.markers[i]?).getD default
    let newTime := checkLimits (frac * s.duration) m
    if s.dragging = false then
      ({ s with
          dragging := true
          lastDragEvent := now
          markers := s.markers.set i { m with time := newTime }
          repositions := s.repositions + 1 },
        [WsEvent.markerDrag i now])
    else
      ({ s with
          lastDragEvent := now
          markers := s.markers.set i { m with time := newTime }
          repositions := s.repositions + 1 },
        if MOUSEMOVE_FREQUENCYMS ≤ now - s.lastDragEvent then [WsEvent.markerDrag i now] else [])

/-- `_onMouseUp(event)` lines 408-425: with a selected marker, queue the
deferred deselection; then return unless a drag is in progress; otherwise
write the clamped final time, reposition, and fire `marker-drop`.  (The
`dragging && no selection` branch cannot occur in reachable states; in JS it
would throw, here it is a no-op.) -/
def onMouseUp (now frac : ℚ) (s : PluginState) : PluginState × List WsEvent :=
  let s0 := if s.selectedMarker.isSome then { s with pendingDeselect := true } else s
  if s0.dragging = false then (s0, [])
  else
    match s0.selectedMarker with
    | some i =>
      let m := (s0.markers[i]?).getD default
      let newTime := checkLimits (frac * s0.duration) m
      ({ s0 with
          markers := s0.markers.set i { m with time := newTime }
          repositions := s0.repositions + 1 },
        [WsEvent.markerDrop i now])
    | none => (s0, [])

/-- The queued `setTimeout` callback of `_onMouseUp` running on the next
scheduler tick: clear the selection and the dragging flag. -/
def deselectTick (s : PluginState) : PluginState :=
  if s.pendingDeselect = true then
    { s with selectedMarker := none, dragging := false, pendingDeselect := false }
  else s

/-- The operations that drive the plugin state: the public store API, a press
on a marker anchor, the two global mouse listeners, and the scheduler tick
that runs the deferred deselection. -/
inductive Op where
  | add (p : MarkerParams)
  | update (options index : JVal)
  | remove (index : ℕ)
  | clear
  | mouseDown (i : ℕ)
  | mouseMove (now frac : ℚ)
  | mouseUp (now frac : ℚ)
  | tick
deriving Repr, DecidableEq, Inhabited

/-- One step of the plugin, returning the fired notifications. -/
def stepE (op : Op) (s : PluginState) : PluginState × List WsEvent :=
  match op with
  | .add p => (addMarker p s, [])
  | .update options index => (update options index s, [])
  | .remove i => (removeMarker i s, [])
  | .clear => (clearMarkers s, [])
  | .mouseDown i => (markerMouseDown i s, [])
  | .mouseMove now frac => onMouseMove now frac s
  | .mouseUp now frac => onMouseUp now frac s
  | .tick => (deselectTick s, [])

/-- Run a list of operations, concatenating the fired notifications. -/
def runOps (s : PluginState) : List Op → PluginState × List WsEvent
  | [] => (s, [])
  | op :: rest =>
    let r1 := stepE op s
    let r2 := runOps r1.1 rest
    (r2.1, r1.2 ++ r2.2)

/-- The freshly constructed plugin: no markers, nothing selected, listeners
not attached, with the geometry the host reports. -/
def initState (d w : ℚ) : PluginState :=
  { markers := []
    selectedMarker := none
    dragging := false
    lastDragEvent := 0
    mouseEventsAdded := false
    pendingDeselect := false
    repositions := 0
    duration := d
    elementWidth := w }

/-- The timestamps of the `marker-drag` notifications in a log. -/
def dragTimes : List WsEvent → List ℚ
  | [] => []
  | .markerDrag _ t :: rest => t :: dragTimes rest
  | .markerDrop _ _ :: rest => dragTimes rest

/-- The `marker-drop` notifications in a log. -/
def dropEvents : List WsEvent → List WsEvent
  | [] => []
  | .markerDrop i t :: rest => .markerDrop i t :: dropEvents rest
  | .markerDrag _ _ :: rest => dropEvents rest

/-- Whether an operation is an `update` whose options set `draggable` to
true, the only way an existing marker can become draggable. -/
def opSetsDraggable : Op → Bool
  | .update (.obj o) _ => o.draggable == some true
  | _ => false

/-- A marker with the same time forgotten, used to state that drag moves
change nothing but the time of the dragged marker. -/
def eraseTime (m : Marker) : Marker := { m with time := 0 }

/-- A marker used in the limit counterexamples: lower limit set to the value
0, upper limit set to 5. -/
def cexZeroLowerMarker : Marker :=
  { id := some "z"
    time := 1
    label := none
    color := DEFAULT_FILL_COLOR
    position := DEFAULT_POSITION
    draggable := false
    textPosition := DEFAULT_TEXTPOSITION
    lowerLimit := some 0
    upperLimit := some 5
    offset := 5
    elScrollWidth := 0
    elDraggable := false }

/-- A marker with both limits set to the nonzero values 2 and 7, used as the
witness input of the amended C1 theorem. -/
def witnessMarker : Marker :=
  { cexZeroLowerMarker with lowerLimit := some 2, upperLimit := some 7 }

/-- The concrete marker of the C4 and C5 scenarios: time 10, text position
right, offset 5 (the offset the default 11 px wide marker produces). -/
def scenarioMarker : Marker :=
  { id := some "a"
    time := 10
    label := none
    color := DEFAULT_FILL_COLOR
    position := DEFAULT_POSITION
    draggable := false
    textPosition := "right"
    lowerLimit := none
    upperLimit := none
    offset := 5
    elScrollWidth := 0
    elDraggable := false }

/-- Parameters of a marker with id x at time 1, not draggable. -/
def paramsX : MarkerParams := { id := some "x", time := 1 }

/-- Parameters of a draggable marker without limits. -/
def paramsDraggable : MarkerParams := { id := some "m", time := 1, draggable := some true }

/-- The state holding exactly the stored marker of `paramsX`. -/
def stateX : PluginState := addMarker paramsX (initState 20 1000)

/-- Update options setting time 9 on the marker with id x. -/
def optionsTime9 : UpdateOptions := { id := some "x", time := some 9 }

/-- Update options setting time 4 on the marker with id x. -/
def optionsTime4 : UpdateOptions := { id := some "x", time := some 4 }

/-- Update options that make the marker with id x draggable. -/
def optionsDraggable : UpdateOptions := { id := some "x", draggable := some true }

/-- The marker list produced by the drag path when it writes the clamped
candidate time `c` into the selected marker at index `i` (the assignment
`this.selectedMarker.time = this._checkLimits(...)` of `_onMouseMove` and
`_onMouseUp`). -/
def dragWrite (s : PluginState) (i : ℕ) (c : ℚ) : List Marker :=
  let m := (s.markers[i]?).getD default
  s.markers.set i { m with time := checkLimits c m }

/-- The drag invariant: whenever a drag is in progress, a marker is
selected.  (In the source `selectedMarker` is the dragged object itself;
`dragging` is only ever set by `_onMouseMove` under a selection and both are
cleared together by the deferred deselection.) -/
def dragImpliesSelected (s : PluginState) : Prop :=
  s.dragging = true → s.selectedMarker.isSome = true

/-- The listener invariant of C7: when some stored marker is draggable, the
global mouse listeners are attached. -/
def listenersInvariant (s : PluginState) : Prop :=
  (∃ m ∈ s.markers, m.draggable = true) → s.mouseEventsAdded = true

/-- The event sequence of a full drag gesture on marker 0: one press, five
moves, one release. -/
def gestureOps (t1 f1 t2 f2 t3 f3 t4 f4 t5 f5 t6 f6 : ℚ) : List Op :=
  [Op.mouseDown 0,
   Op.mouseMove t1 f1, Op.mouseMove t2 f2, Op.mouseMove t3 f3,
   Op.mouseMove t4 f4, Op.mouseMove t5 f5,
   Op.mouseUp t6 f6]

/-- A list of move events given as (timestamp, pointer fraction) pairs. -/
def moveOps (ms : List (ℚ × ℚ)) : List Op :=
  ms.map (fun m => Op.mouseMove m.1 m.2)

/-- The reachable state after adding a draggable marker and pressing it
without moving: the Pressed state of the drag state machine. -/
def pressedState : PluginState :=
  (runOps (initState 20 1000) [Op.add paramsDraggable, Op.mouseDown 0]).1

/-- The reachable state after adding a non-draggable marker and making it
draggable through `update`. -/
def updateDraggableState : PluginState :=
  (runOps (initState 20 1000)
    [Op.add paramsX, Op.update (JVal.obj optionsDraggable) JVal.undef]).1

end Markers

namespace Markers

/-- C1, counterexample: the marker `cexZeroLowerMarker` has its limits set to
L = 0 and U = 5 with L ≤ U, yet `_checkLimits` at candidate time -1 returns
-1, which lies outside [0, 5]: a limit whose value is 0 fails the truthiness
guard, so the claimed clamp into [L, U] does not happen. -/
theorem checkLimits_not_in_range_at_zero_lower :
    cexZeroLowerMarker.lowerLimit = some 0 ∧
    cexZeroLowerMarker.upperLimit = some 5 ∧
    (0 : ℚ) ≤ 5 ∧
    checkLimits (-1) cexZeroLowerMarker = -1 ∧
    ¬ ((0 : ℚ) ≤ -1) := by
  refine ⟨rfl, rfl, by norm_num, ?_, by norm_num⟩
  decide

/-- C1, amended: for every marker whose limits are set to nonzero values
L ≤ U, `_checkLimits` returns a value in [L, U], returns the candidate
unchanged when it already lies in [L, U], and equals the if-then-else chain
(lowerLimit when c < L, else upperLimit when c > U, else c).  The amendment
forced by the counterexample is the restriction to nonzero limit values,
since `_checkLimits` treats a limit of 0 as unset. -/
theorem checkLimits_clamps (m : Marker) (L U c : ℚ)
    (hL : m.lowerLimit = some L) (hU : m.upperLimit = some U)
    (hL0 : L ≠ 0) (hU0 : U ≠ 0) (hLU : L ≤ U) :
    (L ≤ checkLimits c m ∧ checkLimits c m ≤ U) ∧
    (L ≤ c → c ≤ U → checkLimits c m = c) ∧
    checkLimits c m = (if c < L then L else if c > U then U else c) := by
  have hval : checkLimits c m = (if c < L then L else if c > U then U else c) := by
    unfold checkLimits
    rw [hL, hU]
    by_cases h1 : c < L
    · have h2 : ¬ (L > U) := not_lt.mpr hLU
      simp [h1, h2, hL0]
    · by_cases h3 : c > U
      · simp [h1, h3, hU0]
      · simp [h1, h3]
  rw [hval]
  by_cases h1 : c < L
  · rw [if_pos h1]
    exact ⟨⟨le_refl L, hLU⟩, fun hc _ => absurd hc (not_le.mpr h1), rfl⟩
  · rw [if_neg h1]
    by_cases h3 : c > U
    · rw [if_pos h3]
      exact ⟨⟨hLU, le_refl U⟩, fun _ hc => absurd hc (not_le.mpr h3), rfl⟩
    · rw [if_neg h3]
      exact ⟨⟨not_lt.mp h1, not_lt.mp h3⟩, fun _ _ => rfl, rfl⟩

/-- Witness for the amended C1 clamp theorem at L = 2, U = 7, c = 10. -/
theorem checkLimits_clamps_witness :
    ((2 : ℚ) ≤ checkLimits 10 witnessMarker ∧ checkLimits 10 witnessMarker ≤ 7) ∧
    ((2 : ℚ) ≤ 10 → (10 : ℚ) ≤ 7 → checkLimits 10 witnessMarker = 10) ∧
    checkLimits 10 witnessMarker = (if (10 : ℚ) < 2 then 2 else if (10 : ℚ) > 7 then 7 else 10) :=
  checkLimits_clamps witnessMarker 2 7 10 rfl rfl (by norm_num) (by norm_num) (by norm_num)

/-- C8: a limit whose value is 0 is treated as unset by `_checkLimits`.
Replacing a zero lower (resp. upper) limit by an absent one never changes the
result, and in particular a marker whose lower limit is 0 and whose upper
limit is absent returns every negative candidate unchanged instead of
clamping it up to 0. -/
theorem checkLimits_zero_limit_unset :
    (∀ (m : Marker) (c : ℚ), m.lowerLimit = some 0 →
        checkLimits c m = checkLimits c { m with lowerLimit := none }) ∧
    (∀ (m : Marker) (c : ℚ), m.upperLimit = some 0 →
        checkLimits c m = checkLimits c { m with upperLimit := none }) ∧
    (∀ (m : Marker) (c : ℚ), m.lowerLimit = some 0 → m.upperLimit = none →
        c < 0 → checkLimits c m = c) := by
  refine ⟨?_, ?_, ?_⟩
  · intro m c h
    unfold checkLimits
    rw [h]
    simp
  · intro m c h
    unfold checkLimits
    rw [h]
    simp
  · intro m c hl hu _
    unfold checkLimits
    rw [hl, hu]
    simp

/-- Witness for C8 at the concrete marker with lower limit 0 and candidate
time -3: the zero lower limit behaves exactly like an absent one. -/
theorem checkLimits_zero_limit_unset_witness :
    checkLimits (-3) cexZeroLowerMarker
      = checkLimits (-3) { cexZeroLowerMarker with lowerLimit := none } :=
  checkLimits_zero_limit_unset.1 cexZeroLowerMarker (-3) rfl

/-- C10: with misconfigured nonzero limits L > U, the two checks of
`_checkLimits` run sequentially, so a candidate below L is first raised to L
and then lowered to U; the result is U. -/
theorem checkLimits_order_dependent (m : Marker) (L U c : ℚ)
    (hL : m.lowerLimit = some L) (hU : m.upperLimit = some U)
    (hL0 : L ≠ 0) (hU0 : U ≠ 0) (hUL : U < L) (hc : c < L) :
    checkLimits c m = U := by
  unfold checkLimits
  rw [hL, hU]
  simp only [hc, hL0, ne_eq, not_false_iff, true_and, if_true]
  simp [hUL, hU0]

/-- Witness for C10 at L = 10, U = 4, c = 1: the result is the upper limit 4. -/
theorem checkLimits_order_dependent_witness :
    checkLimits 1 { cexZeroLowerMarker with lowerLimit := some 10, upperLimit := some 4 } = 4 :=
  checkLimits_order_dependent _ 10 4 1 rfl rfl (by norm_num) (by norm_num) (by norm_num) (by norm_num)

/-- C4: for duration > 0 the computed left pixel value is
`elementWidth * min(time / duration, 1) - offset`, shifted left by an
additional `elScrollWidth - markerWidth` exactly when the text position is
left; on the concrete scenario marker the value is 495 at duration 20 and
visible width 1000, and 245 at duration 40. -/
theorem updateMarkerPosition_formula (m : Marker) (d w : ℚ) (_hd : 0 < d) :
    updateMarkerPosition m d w
      = (w * min (m.time / d) 1 - m.offset)
        - (if m.textPosition = "left" then m.elScrollWidth - markerWidth else 0) ∧
    updateMarkerPosition scenarioMarker 20 1000 = 495 ∧
    updateMarkerPosition scenarioMarker 40 1000 = 245 := by
  refine ⟨?_, ?_, ?_⟩
  · unfold updateMarkerPosition
    by_cases h : m.textPosition = "left"
    · simp [h]; ring
    · simp [h]
  · simp only [updateMarkerPosition, scenarioMarker]
    rw [if_neg (by decide : ¬ ("right" : String) = "left")]
    norm_num [min_def]
  · simp only [updateMarkerPosition, scenarioMarker]
    rw [if_neg (by decide : ¬ ("right" : String) = "left")]
    norm_num [min_def]

/-- Witness for C4 at the scenario marker with duration 20 and width 1000. -/
theorem updateMarkerPosition_formula_witness :
    updateMarkerPosition scenarioMarker 20 1000
      = (1000 * min ((scenarioMarker.time) / 20) 1 - scenarioMarker.offset)
        - (if scenarioMarker.textPosition = "left"
            then scenarioMarker.elScrollWidth - markerWidth else 0) ∧
    updateMarkerPosition scenarioMarker 20 1000 = 495 ∧
    updateMarkerPosition scenarioMarker 40 1000 = 245 :=
  (updateMarkerPosition_formula scenarioMarker 20 1000 (by norm_num))

/-- C5, counterexample: on the scenario marker (offset 5, time 10) with
duration 20 and width 1000 the round trip
`pixelToTime(timeToPixel(t, d, w) / w, d)` yields 99/10, not the original
time 10, although 0 ≤ 10 ≤ 20; the mapper of the reposition pass subtracts
the marker offset, which the inverse never adds back. -/
theorem roundTrip_not_identity :
    (0 : ℚ) ≤ scenarioMarker.time ∧ scenarioMarker.time ≤ 20 ∧
    pixelToTime (updateMarkerPosition scenarioMarker 20 1000 / 1000) 20 = 99 / 10 ∧
    (99 / 10 : ℚ) ≠ scenarioMarker.time := by
  refine ⟨by norm_num [scenarioMarker], by norm_num [scenarioMarker], ?_, by norm_num [scenarioMarker]⟩
  simp only [pixelToTime, updateMarkerPosition, scenarioMarker]
  rw [if_neg (by decide : ¬ ("right" : String) = "left")]
  norm_num [min_def]

/-- C5, amended: for duration d > 0, width w > 0 and a right-text marker with
0 ≤ time ≤ d, the round trip through the reposition mapper equals
`time - d * offset / w` exactly; it equals the original time precisely when
the marker offset is 0. -/
theorem roundTrip_offset_shift (m : Marker) (d w : ℚ)
    (hd : 0 < d) (hw : 0 < w) (_h0 : 0 ≤ m.time) (h1 : m.time ≤ d)
    (ht : m.textPosition ≠ "left") :
    pixelToTime (updateMarkerPosition m d w / w) d = m.time - d * m.offset / w ∧
    (pixelToTime (updateMarkerPosition m d w / w) d = m.time ↔ m.offset = 0) := by
  have hmin : min (m.time / d) 1 = m.time / d := by
    apply min_eq_left
    rw [div_le_one hd]
    exact h1
  have hmain : pixelToTime (updateMarkerPosition m d w / w) d = m.time - d * m.offset / w := by
    unfold pixelToTime updateMarkerPosition
    simp only [ht, if_false, hmin]
    field_simp
    ring
  refine ⟨hmain, ?_⟩
  rw [hmain]
  constructor
  · intro h
    have hz : d * m.offset / w = 0 := by linarith
    have hd0 : d ≠ 0 := ne_of_gt hd
    have hw0 : w ≠ 0 := ne_of_gt hw
    field_simp at hz
    rcases mul_eq_zero.mp hz with h1 | h1
    · exact absurd h1 hd0
    · exact h1
  · intro h
    rw [h]
    ring_nf

/-- Witness for the amended C5 at the scenario marker, duration 20, width
1000: the round trip equals 10 - 20 * 5 / 1000 and is the original time only
if the offset were 0. -/
theorem roundTrip_offset_shift_witness :
    pixelToTime (updateMarkerPosition scenarioMarker 20 1000 / 1000) 20
      = scenarioMarker.time - 20 * scenarioMarker.offset / 1000 ∧
    (pixelToTime (updateMarkerPosition scenarioMarker 20 1000 / 1000) 20
        = scenarioMarker.time ↔ scenarioMarker.offset = 0) :=
  roundTrip_offset_shift scenarioMarker 20 1000 (by norm_num) (by norm_num)
    (by norm_num [scenarioMarker]) (by norm_num [scenarioMarker])
    (by simp [scenarioMarker])

/-- C6: `update(options, index)` targets the marker at `index` for a nonzero
in-range integer index, falls back to the first id match for index 0 or an
omitted index, is a silent no-op when no target exists, merges every present
option field over the stored marker without a limit check, triggers a
reposition pass, and two sequential updates of the same marker leave the
last written time (update to time 9 then to time 4 ends at time 4). -/
theorem update_targets_and_merges (s : PluginState) (o : UpdateOptions) :
    (∀ n : ℕ, n ≠ 0 → n < s.markers.length →
        update (JVal.obj o) (JVal.num (n : ℚ)) s
          = { s with
              markers := s.markers.set n (assignMarker ((s.markers[n]?).getD default) o)
              repositions := s.repositions + 1 }) ∧
    (∀ idx : JVal, idx = JVal.num 0 ∨ idx = JVal.undef →
        updateTarget s.markers (JVal.obj o) idx
          = s.markers.findIdx? (fun m => jsEqId m.id o.id)) ∧
    (∀ idx : JVal, updateTarget s.markers (JVal.obj o) idx = none →
        update (JVal.obj o) idx s = s) ∧
    (∀ m : Marker,
        (assignMarker m o).time = o.time.getD m.time ∧
        (assignMarker m o).draggable = o.draggable.getD m.draggable ∧
        (assignMarker m o).lowerLimit
          = (match o.lowerLimit with | some v => some v | none => m.lowerLimit) ∧
        (assignMarker m o).upperLimit
          = (match o.upperLimit with | some v => some v | none => m.upperLimit)) ∧
    ((update (JVal.obj optionsTime4) JVal.undef
        (update (JVal.obj optionsTime9) JVal.undef stateX)).markers[0]?).map Marker.time
      = some 4 := by
  refine ⟨?_, ?_, ?_, ?_, ?_⟩
  · intro n hn hlen
    have hq0 : (n : ℚ) ≠ 0 := Nat.cast_ne_zero.mpr hn
    have hq1 : ¬ ((n : ℚ) < 0) := not_lt.mpr (Nat.cast_nonneg n)
    have hq2 : ¬ ((n : ℚ) > (s.markers.length : ℚ) - 1) := by
      push_neg
      have : (n : ℚ) + 1 ≤ (s.markers.length : ℚ) := by exact_mod_cast hlen
      linarith
    unfold update updateTarget
    simp [jsTruthy, jvLtZero, jvGt, jvArrayIdx, jvAssign, hq0, hq1, hq2, hlen]
  · intro idx hidx
    rcases hidx with h | h <;> subst h <;>
      simp [updateTarget, jsTruthy, jvId]
  · intro idx hnone
    unfold update
    rw [hnone]
  · intro m
    refine ⟨rfl, rfl, rfl, rfl⟩
  · decide

/-- Witness for C6 at the one-marker state `stateX` (marker id x at index 0)
with options `optionsTime9`: the by-index branch at index 0 of a larger
store, the by-id fallback, the no-op case, the field merge and the
last-write-wins scenario are all instantiated. -/
theorem update_targets_and_merges_witness :
    (∀ n : ℕ, n ≠ 0 → n < stateX.markers.length →
        update (JVal.obj optionsTime9) (JVal.num (n : ℚ)) stateX
          = { stateX with
              markers := stateX.markers.set n
                (assignMarker ((stateX.markers[n]?).getD default) optionsTime9)
              repositions := stateX.repositions + 1 }) ∧
    (∀ idx : JVal, idx = JVal.num 0 ∨ idx = JVal.undef →
        updateTarget stateX.markers (JVal.obj optionsTime9) idx
          = stateX.markers.findIdx? (fun m => jsEqId m.id optionsTime9.id)) ∧
    (∀ idx : JVal, updateTarget stateX.markers (JVal.obj optionsTime9) idx = none →
        update (JVal.obj optionsTime9) idx stateX = stateX) ∧
    (∀ m : Marker,
        (assignMarker m optionsTime9).time = optionsTime9.time.getD m.time ∧
        (assignMarker m optionsTime9).draggable = optionsTime9.draggable.getD m.draggable ∧
        (assignMarker m optionsTime9).lowerLimit
          = (match optionsTime9.lowerLimit with | some v => some v | none => m.lowerLimit) ∧
        (assignMarker m optionsTime9).upperLimit
          = (match optionsTime9.upperLimit with | some v => some v | none => m.upperLimit)) ∧
    ((update (JVal.obj optionsTime4) JVal.undef
        (update (JVal.obj optionsTime9) JVal.undef stateX)).markers[0]?).map Marker.time
      = some 4 :=
  update_targets_and_merges stateX optionsTime9

/-- C9: the static wrapper `updateMarker(index, options)` forwards its two
arguments in source order to `update(options, index)`, so the numeric index
is interpreted as the options value and the options object as the index; the
object index is truthy, passes the NaN range comparisons, and subscripts the
array with a non-index key, so the call never updates any marker: it is a
complete no-op for every state, index and options. -/
theorem updateMarker_swapped_noop (s : PluginState) (index : ℚ) (options : UpdateOptions) :
    updateMarker index options s = update (JVal.num index) (JVal.obj options) s ∧
    updateMarker index options s = s := by
  refine ⟨rfl, ?_⟩
  unfold updateMarker update updateTarget
  simp [jsTruthy, jvLtZero, jvGt, jvArrayIdx]

/-- Shape of `_onMouseMove` on the first move of a gesture (selected marker,
not yet dragging): start dragging, record the timestamp, fire `marker-drag`,
write the clamped time, reposition. -/
theorem onMouseMove_first (now frac : ℚ) (s : PluginState) (i : ℕ)
    (hs : s.selectedMarker = some i) (hd : s.dragging = false) :
    onMouseMove now frac s
      = ({ s with
            dragging := true
            lastDragEvent := now
            markers := dragWrite s i (frac * s.duration)
            repositions := s.repositions + 1 },
          [WsEvent.markerDrag i now]) := by
  simp [onMouseMove, dragWrite, hs, hd]

/-- Shape of `_onMouseMove` on a later move (selected marker, dragging):
update the timestamp, fire `marker-drag` only when the previous move is at
least the throttle floor in the past, write the clamped time, reposition. -/
theorem onMouseMove_next (now frac : ℚ) (s : PluginState) (i : ℕ)
    (hs : s.selectedMarker = some i) (hd : s.dragging = true) :
    onMouseMove now frac s
      = ({ s with
            lastDragEvent := now
            markers := dragWrite s i (frac * s.duration)
            repositions := s.repositions + 1 },
          if MOUSEMOVE_FREQUENCYMS ≤ now - s.lastDragEvent
            then [WsEvent.markerDrag i now] else []) := by
  simp [onMouseMove, dragWrite, hs, hd]

/-- Shape of `_onMouseUp` on release during a drag: queue the deferred
deselection, write the clamped final time, reposition, fire one
`marker-drop`. -/
theorem onMouseUp_drop (now frac : ℚ) (s : PluginState) (i : ℕ)
    (hs : s.selectedMarker = some i) (hd : s.dragging = true) :
    onMouseUp now frac s
      = ({ s with
            pendingDeselect := true
            markers := dragWrite s i (frac * s.duration)
            repositions := s.repositions + 1 },
          [WsEvent.markerDrop i now]) := by
  simp [onMouseUp, dragWrite, hs, hd]

/-- Shape of `_onMouseUp` on release in the Pressed state (selected marker,
no move seen): only the deferred deselection is queued; nothing is written
and nothing is fired. -/
theorem onMouseUp_pressed (now frac : ℚ) (s : PluginState) (i : ℕ)
    (hs : s.selectedMarker = some i) (hd : s.dragging = false) :
    onMouseUp now frac s = ({ s with pendingDeselect := true }, []) := by
  simp [onMouseUp, hs, hd]

/-- Shape of `_onMouseUp` with no selection and no drag: a complete no-op. -/
theorem onMouseUp_none (now frac : ℚ) (s : PluginState)
    (hs : s.selectedMarker = none) (hd : s.dragging = false) :
    onMouseUp now frac s = (s, []) := by
  simp [onMouseUp, hs, hd]

/-- Every step preserves the drag invariant. -/
theorem stepE_dragImpliesSelected (op : Op) (s : PluginState)
    (h : dragImpliesSelected s) : dragImpliesSelected (stepE op s).1 := by
  cases op with
  | add p =>
    simp only [stepE]
    unfold dragImpliesSelected
    simp only [addMarker]
    split_ifs <;> exact h
  | update options index =>
    simp only [stepE]
    unfold dragImpliesSelected update
    cases hmatch : updateTarget s.markers options index <;> simp only [hmatch] <;> exact h
  | remove i => exact h
  | clear => exact h
  | mouseDown i =>
    simp only [stepE]
    unfold dragImpliesSelected markerMouseDown
    split_ifs with hcond
    · intro _; rfl
    · exact h
  | mouseMove now frac =>
    simp only [stepE]
    cases hsel : s.selectedMarker with
    | none =>
      unfold dragImpliesSelected onMouseMove
      simp only [hsel]
      intro hd
      simpa [hsel] using h hd
    | some i =>
      cases hd : s.dragging with
      | false =>
        rw [onMouseMove_first now frac s i hsel hd]
        intro _; simp [hsel]
      | true =>
        rw [onMouseMove_next now frac s i hsel hd]
        intro _; simp [hsel]
  | mouseUp now frac =>
    simp only [stepE]
    cases hsel : s.selectedMarker with
    | none =>
      cases hd : s.dragging with
      | false =>
        rw [onMouseUp_none now frac s hsel hd]
        exact h
      | true => exact absurd (h hd) (by simp [hsel])
    | some i =>
      cases hd : s.dragging with
      | false =>
        rw [onMouseUp_pressed now frac s i hsel hd]
        intro _; simp [hsel]
      | true =>
        rw [onMouseUp_drop now frac s i hsel hd]
        intro _; simp [hsel]
  | tick =>
    simp only [stepE]
    unfold dragImpliesSelected deselectTick
    split_ifs with hc
    · intro hdd; exact absurd hdd (by simp)
    · exact h

/-- Running any operation list preserves the drag invariant. -/
theorem runOps_dragImpliesSelected (ops : List Op) :
    ∀ s : PluginState, dragImpliesSelected s → dragImpliesSelected (runOps s ops).1 := by
  induction ops with
  | nil => intro s h; exact h
  | cons op rest ih =>
    intro s h
    exact ih (stepE op s).1 (stepE_dragImpliesSelected op s h)

/-- C2, counterexample: in the reachable Pressed state (a draggable marker
was added and pressed, no move yet) a marker is selected, yet release fires
no `marker-drop` at all and writes nothing: `_onMouseUp` returns before the
write and the event because `dragging` is still false, contradicting the
claim that a release in the Pressed state clamps, writes and emits exactly
one `marker-drop`. -/
theorem mouseUp_pressed_no_drop :
    pressedState.selectedMarker = some 0 ∧
    (onMouseUp 100 (1 / 2) pressedState).2 = [] ∧
    (onMouseUp 100 (1 / 2) pressedState).1.markers = pressedState.markers ∧
    (onMouseUp 100 (1 / 2) pressedState).1.repositions = pressedState.repositions := by
  have hsel : pressedState.selectedMarker = some 0 := rfl
  have hd : pressedState.dragging = false := rfl
  rw [onMouseUp_pressed 100 (1 / 2) pressedState 0 hsel hd]
  exact ⟨hsel, rfl, rfl, rfl⟩

/-- C2, amended: on release while a marker is selected and a drag is in
progress, `_onMouseUp` clamps and writes the final time, triggers a
reposition pass, emits exactly one `marker-drop` and queues the deferred
deselection; on release in the Pressed state (selected, no move yet) it only
queues the deferred deselection, with no write and no notification; in both
selected cases the next scheduler tick completes the deselection; a release
with no marker selected is a no-op (and in every reachable state a drag in
progress implies a selection, so release without selection always hits the
no-op branch).  The amendment: the Pressed release does not clamp or write
or emit, it only deselects. -/
theorem mouseUp_release_spec (now frac : ℚ) :
    (∀ (s : PluginState) (i : ℕ), s.selectedMarker = some i → s.dragging = true →
        onMouseUp now frac s
          = ({ s with
                pendingDeselect := true
                markers := dragWrite s i (frac * s.duration)
                repositions := s.repositions + 1 },
              [WsEvent.markerDrop i now])) ∧
    (∀ (s : PluginState) (i : ℕ), s.selectedMarker = some i → s.dragging = false →
        onMouseUp now frac s = ({ s with pendingDeselect := true }, [])) ∧
    (∀ (s : PluginState) (i : ℕ), s.selectedMarker = some i →
        (deselectTick (onMouseUp now frac s).1).selectedMarker = none ∧
        (deselectTick (onMouseUp now frac s).1).dragging = false) ∧
    (∀ s : PluginState, s.selectedMarker = none → s.dragging = false →
        onMouseUp now frac s = (s, [])) ∧
    (∀ (d w : ℚ) (ops : List Op),
        (runOps (initState d w) ops).1.dragging = true →
        ((runOps (initState d w) ops).1.selectedMarker).isSome = true) := by
  refine ⟨?_, ?_, ?_, ?_, ?_⟩
  · intro s i hs hd; exact onMouseUp_drop now frac s i hs hd
  · intro s i hs hd; exact onMouseUp_pressed now frac s i hs hd
  · intro s i hs
    cases hd : s.dragging with
    | false =>
      rw [onMouseUp_pressed now frac s i hs hd]
      constructor <;> simp [deselectTick]
    | true =>
      rw [onMouseUp_drop now frac s i hs hd]
      constructor <;> simp [deselectTick]
  · intro s hs hd; exact onMouseUp_none now frac s hs hd
  · intro d w ops
    have hinit : dragImpliesSelected (initState d w) := by
      intro hd; simp [initState] at hd
    exact runOps_dragImpliesSelected ops (initState d w) hinit

/-- Witness for the amended C2 at the Pressed state and at the Dragging
state obtained from it by one move: the drop branch, the pressed branch, the
deferred deselection and the no-op branch are all instantiated. -/
theorem mouseUp_release_spec_witness :
    onMouseUp 100 (1 / 2) pressedState = ({ pressedState with pendingDeselect := true }, []) ∧
    onMouseUp 100 (1 / 2) (initState 20 1000) = (initState 20 1000, []) :=
  ⟨(mouseUp_release_spec 100 (1 / 2)).2.1 pressedState 0 rfl rfl,
   (mouseUp_release_spec 100 (1 / 2)).2.2.2.1 (initState 20 1000) rfl rfl⟩

/-- A successful target lookup of `update` always denotes an existing slot. -/
theorem updateTarget_lt {ms : List Marker} {options index : JVal} {i : ℕ}
    (h : updateTarget ms options index = some i) : i < ms.length := by
  unfold updateTarget at h
  by_cases h1 : jsTruthy index = true
  · rw [if_pos h1] at h
    by_cases h2 : (jvLtZero index || jvGt index ((ms.length : ℚ) - 1)) = true
    · rw [if_pos h2] at h
      exact absurd h (by simp)
    · rw [if_neg h2] at h
      cases index with
      | num q =>
        simp only [jvArrayIdx] at h
        by_cases h3 : q.den = 1 ∧ 0 ≤ q.num ∧ q.num.toNat < ms.length
        · rw [if_pos h3] at h
          obtain rfl : q.num.toNat = i := by simpa using h
          exact h3.2.2
        · rw [if_neg h3] at h
          exact absurd h (by simp)
      | obj o => exact absurd h (by simp [jvArrayIdx])
      | undef => exact absurd h (by simp [jvArrayIdx])
  · rw [if_neg h1] at h
    obtain ⟨hlt, -, -⟩ := List.findIdx?_eq_some_iff_getElem.mp h
    exact hlt

/-- Once the global mouse listeners are attached, no step detaches them. -/
theorem stepE_mouseEventsAdded_mono (op : Op) (s : PluginState)
    (h : s.mouseEventsAdded = true) : (stepE op s).1.mouseEventsAdded = true := by
  cases op with
  | add p =>
    simp only [stepE]
    simp only [addMarker]
    split_ifs with hc
    · rfl
    · exact h
  | update options index =>
    simp only [stepE]
    unfold update
    cases hm : updateTarget s.markers options index <;> simp only [hm] <;> exact h
  | remove i => exact h
  | clear => exact h
  | mouseDown i =>
    simp only [stepE]
    unfold markerMouseDown
    split_ifs <;> exact h
  | mouseMove now frac =>
    simp only [stepE]
    cases hsel : s.selectedMarker with
    | none =>
      unfold onMouseMove
      simp only [hsel]
      exact h
    | some i =>
      cases hd : s.dragging with
      | false => rw [onMouseMove_first now frac s i hsel hd]; exact h
      | true => rw [onMouseMove_next now frac s i hsel hd]; exact h
  | mouseUp now frac =>
    simp only [stepE]
    cases hsel : s.selectedMarker with
    | none =>
      cases hd : s.dragging with
      | false => rw [onMouseUp_none now frac s hsel hd]; exact h
      | true => simp [onMouseUp, hsel, hd, h]
    | some i =>
      cases hd : s.dragging with
      | false => rw [onMouseUp_pressed now frac s i hsel hd]; exact h
      | true => rw [onMouseUp_drop now frac s i hsel hd]; exact h
  | tick =>
    simp only [stepE]
    unfold deselectTick
    split_ifs <;> exact h

/-- Writing a clamped time into the selected marker never creates a
draggable marker, so the listener invariant survives a drag write. -/
theorem dragWrite_preserves_listeners (s : PluginState) (i : ℕ) (c : ℚ)
    (h : listenersInvariant s) :
    (∃ m ∈ dragWrite s i c, m.draggable = true) → s.mouseEventsAdded = true := by
  rintro ⟨m, hm, hd⟩
  unfold dragWrite at hm
  rcases List.mem_or_eq_of_mem_set hm with hold | heq
  · exact h ⟨m, hold, hd⟩
  · by_cases hlen : i < s.markers.length
    · have hm0 : (s.markers[i]?).getD default ∈ s.markers := by
        rw [List.getElem?_eq_getElem hlen]
        exact List.getElem_mem hlen
      refine h ⟨_, hm0, ?_⟩
      rw [heq] at hd
      exact hd
    · have hnone : s.markers[i]? = none := List.getElem?_eq_none (by omega)
      rw [heq, hnone] at hd
      have hred : ({ (Option.none.getD default : Marker) with
          time := checkLimits c (Option.none.getD default) }).draggable
          = (default : Marker).draggable := rfl
      rw [hred] at hd
      exact absurd hd (by decide)

/-- Every step whose options do not set `draggable` preserves the listener
invariant: only `add` can introduce a draggable marker, and it attaches the
listeners when it does. -/
theorem stepE_listenersInvariant (op : Op) (s : PluginState)
    (hop : opSetsDraggable op = false) (h : listenersInvariant s) :
    listenersInvariant (stepE op s).1 := by
  cases op with
  | add p =>
    simp only [stepE]
    intro hex
    by_cases hc : p.draggable.getD false = true ∧ s.mouseEventsAdded = false
    · simp [addMarker, hc]
    · obtain ⟨m, hm, hdrag⟩ := hex
      have hm2 : m ∈ s.markers ++ [mkMarker p] := by
        simpa [addMarker, hc] using hm
      rcases List.mem_append.mp hm2 with hold | hnew
      · have := h ⟨m, hold, hdrag⟩
        simpa [addMarker, hc] using this
      · have hm3 : m = mkMarker p := by simpa using hnew
        rw [hm3] at hdrag
        have hpd : p.draggable.getD false = true := hdrag
        have hflag : s.mouseEventsAdded = true := by
          rcases Bool.eq_false_or_eq_true s.mouseEventsAdded with hf | ht
          · exact hf
          · exact absurd ⟨hpd, ht⟩ hc
        simpa [addMarker, hc] using hflag
  | update options index =>
    simp only [stepE]
    unfold update
    cases hm : updateTarget s.markers options index with
    | none => exact h
    | some i =>
      simp only []
      rintro ⟨m, hmem, hdrag⟩
      have hilt : i < s.markers.length := updateTarget_lt hm
      have hm0 : (s.markers[i]?).getD default ∈ s.markers := by
        rw [List.getElem?_eq_getElem hilt]
        exact List.getElem_mem hilt
      rcases List.mem_or_eq_of_mem_set hmem with hold | heq
      · exact h ⟨m, hold, hdrag⟩
      · cases options with
        | obj o =>
          have hod : o.draggable ≠ some true := by
            intro hcon
            rw [show opSetsDraggable (Op.update (JVal.obj o) index)
                = (o.draggable == some true) from rfl, hcon] at hop
            simp at hop
          rw [heq] at hdrag
          have hmd : ((s.markers[i]?).getD default).draggable = true := by
            cases hco : o.draggable with
            | none => simpa [jvAssign, assignMarker, hco] using hdrag
            | some b =>
              cases b with
              | true => exact absurd hco hod
              | false => simp [jvAssign, assignMarker, hco] at hdrag
          exact h ⟨_, hm0, hmd⟩
        | num q =>
          rw [heq] at hdrag
          exact h ⟨_, hm0, by simpa [jvAssign] using hdrag⟩
        | undef =>
          rw [heq] at hdrag
          exact h ⟨_, hm0, by simpa [jvAssign] using hdrag⟩
  | remove i =>
    simp only [stepE]
    rintro ⟨m, hm, hd⟩
    exact h ⟨m, List.eraseIdx_subset _ _ hm, hd⟩
  | clear =>
    simp only [stepE]
    rintro ⟨m, hm, -⟩
    simp [clearMarkers] at hm
  | mouseDown i =>
    simp only [stepE]
    unfold markerMouseDown
    split_ifs <;> exact h
  | mouseMove now frac =>
    simp only [stepE]
    cases hsel : s.selectedMarker with
    | none =>
      unfold onMouseMove
      simp only [hsel]
      exact h
    | some i =>
      cases hd : s.dragging with
      | false =>
        rw [onMouseMove_first now frac s i hsel hd]
        exact dragWrite_preserves_listeners s i _ h
      | true =>
        rw [onMouseMove_next now frac s i hsel hd]
        exact dragWrite_preserves_listeners s i _ h
  | mouseUp now frac =>
    simp only [stepE]
    cases hsel : s.selectedMarker with
    | none =>
      cases hd : s.dragging with
      | false => rw [onMouseUp_none now frac s hsel hd]; exact h
      | true =>
        intro hex
        have hres : (onMouseUp now frac s).1 = s := by
          simp [onMouseUp, hsel, hd]
        rw [hres] at hex ⊢
        exact h hex
    | some i =>
      cases hd : s.dragging with
      | false => rw [onMouseUp_pressed now frac s i hsel hd]; exact h
      | true =>
        rw [onMouseUp_drop now frac s i hsel hd]
        exact dragWrite_preserves_listeners s i _ h
  | tick =>
    simp only [stepE]
    unfold deselectTick
    split_ifs <;> exact h

/-- Running operations that never set `draggable` through `update` preserves
the listener invariant. -/
theorem runOps_listenersInvariant (ops : List Op) :
    ∀ s : PluginState, (∀ op ∈ ops, opSetsDraggable op = false) →
      listenersInvariant s → listenersInvariant (runOps s ops).1 := by
  induction ops with
  | nil => intro s _ h; exact h
  | cons op rest ih =>
    intro s hops h
    exact ih (stepE op s).1 (fun o ho => hops o (List.mem_cons_of_mem op ho))
      (stepE_listenersInvariant op s (hops op (List.mem_cons_self op rest)) h)

/-- C7, counterexample: starting from the fresh plugin, adding a
non-draggable marker and then making it draggable through
`update({id:'x', draggable:true})` reaches a state in which a stored marker
is draggable but the global mouse listeners were never attached
(`mouseEventsAdded` is still false): `update` has no listener-attachment
path, contradicting the claim that listeners attach when a marker becomes
draggable via update. -/
theorem update_draggable_without_listeners :
    (∃ m ∈ updateDraggableState.markers, m.draggable = true) ∧
    updateDraggableState.mouseEventsAdded = false := by
  constructor
  · refine ⟨(updateDraggableState.markers[0]?).getD default, ?_, ?_⟩
    · have hlen : 0 < updateDraggableState.markers.length := by decide
      rw [List.getElem?_eq_getElem hlen]
      exact List.getElem_mem hlen
    · rfl
  · rfl

/-- C7, amended: the global mouse listeners attach the first time a marker
with `draggable` set is added, and once attached no step ever detaches them;
therefore, in every state reachable without an `update` that sets
`draggable`, the presence of a draggable stored marker implies the listeners
are attached.  The amendment forced by the counterexample: a marker that
becomes draggable via `update` does not trigger attachment, so the invariant
excludes update-induced draggability. -/
theorem listeners_attach_on_add (d w : ℚ) (ops : List Op)
    (hops : ∀ op ∈ ops, opSetsDraggable op = false) :
    ((∃ m ∈ (runOps (initState d w) ops).1.markers, m.draggable = true) →
        (runOps (initState d w) ops).1.mouseEventsAdded = true) ∧
    (∀ (op : Op) (s : PluginState), s.mouseEventsAdded = true →
        (stepE op s).1.mouseEventsAdded = true) := by
  constructor
  · have hinit : listenersInvariant (initState d w) := by
      rintro ⟨m, hm, -⟩
      simp [initState] at hm
    exact runOps_listenersInvariant ops (initState d w) hops hinit
  · exact stepE_mouseEventsAdded_mono

/-- Witness for the amended C7: after adding one draggable marker, a
draggable marker is stored and the listeners are indeed attached. -/
theorem listeners_attach_on_add_witness :
    ((∃ m ∈ (runOps (initState 20 1000) [Op.add paramsDraggable]).1.markers, m.draggable = true) →
        (runOps (initState 20 1000) [Op.add paramsDraggable]).1.mouseEventsAdded = true) ∧
    (∀ (op : Op) (s : PluginState), s.mouseEventsAdded = true →
        (stepE op s).1.mouseEventsAdded = true) :=
  listeners_attach_on_add 20 1000 [Op.add paramsDraggable]
    (by intro op hop; rw [List.mem_singleton] at hop; subst hop; rfl)

/-- A marker without limits is never clamped. -/
theorem checkLimits_no_limits (c : ℚ) (m : Marker)
    (hl : m.lowerLimit = none) (hu : m.upperLimit = none) :
    checkLimits c m = c := by
  unfold checkLimits
  rw [hl, hu]

/-- `dragTimes` distributes over concatenation. -/
theorem dragTimes_append (l1 l2 : List WsEvent) :
    dragTimes (l1 ++ l2) = dragTimes l1 ++ dragTimes l2 := by
  induction l1 with
  | nil => rfl
  | cons ev rest ih =>
    cases ev with
    | markerDrag i t => simp [dragTimes, ih]
    | markerDrop i t => simp [dragTimes, ih]

/-- `dropEvents` distributes over concatenation. -/
theorem dropEvents_append (l1 l2 : List WsEvent) :
    dropEvents (l1 ++ l2) = dropEvents l1 ++ dropEvents l2 := by
  induction l1 with
  | nil => rfl
  | cons ev rest ih =>
    cases ev with
    | markerDrag i t => simp [dropEvents, ih]
    | markerDrop i t => simp [dropEvents, ih]

/-- A log consisting only of `marker-drag` notifications contains no
`marker-drop`. -/
theorem dropEvents_nil_of_drags (i : ℕ) :
    ∀ evs : List WsEvent, (∀ ev ∈ evs, ∃ t, ev = WsEvent.markerDrag i t) →
      dropEvents evs = [] := by
  intro evs
  induction evs with
  | nil => intro _; rfl
  | cons ev rest ih =>
    intro h
    obtain ⟨t, ht⟩ := h ev (List.mem_cons_self ev rest)
    subst ht
    simpa [dropEvents] using ih (fun e he => h e (List.mem_cons_of_mem _ he))

/-- Overwriting the time of a marker is invisible to the time-forgetting
projection. -/
theorem eraseTime_setTime (m : Marker) (x : ℚ) :
    eraseTime { m with time := x } = eraseTime m := by
  cases m
  rfl

/-- Writing any time into a slot of the marker list leaves the
time-forgetting projection of the list unchanged. -/
theorem map_eraseTime_set :
    ∀ (l : List Marker) (i : ℕ) (x : ℚ),
      ((l.set i { ((l[i]?).getD default) with time := x }).map eraseTime)
        = l.map eraseTime := by
  intro l
  induction l with
  | nil => intro i x; rfl
  | cons a tl ih =>
    intro i x
    cases i with
    | zero =>
      simp only [List.getElem?_cons_zero, Option.getD_some, List.set_cons_zero, List.map_cons]
      rw [eraseTime_setTime]
    | succ j =>
      simp only [List.getElem?_cons_succ, List.set_cons_succ, List.map_cons]
      rw [ih j x]

/-- The drag write leaves the time-forgetting projection of the marker list
unchanged. -/
theorem dragWrite_map_eraseTime (s : PluginState) (i : ℕ) (c : ℚ) :
    (dragWrite s i c).map eraseTime = s.markers.map eraseTime :=
  map_eraseTime_set s.markers i (checkLimits c ((s.markers[i]?).getD default))

/-- A chain of timestamps at least the throttle floor apart grows by the
floor with every element. -/
theorem chain50_growth :
    ∀ (l : List ℚ) (e0 : ℚ),
      List.Chain (fun a b => a + MOUSEMOVE_FREQUENCYMS ≤ b) e0 l → l ≠ [] →
      ∃ x ∈ l, e0 + MOUSEMOVE_FREQUENCYMS * (l.length : ℚ) ≤ x := by
  intro l
  induction l with
  | nil => intro e0 _ hne; exact absurd rfl hne
  | cons a tl ih =>
    intro e0 hchain _
    obtain ⟨h1, h2⟩ := List.chain_cons.mp hchain
    cases tl with
    | nil =>
      refine ⟨a, List.mem_singleton_self a, ?_⟩
      simpa using h1
    | cons b tl2 =>
      obtain ⟨x, hx, hgr⟩ := ih a h2 (List.cons_ne_nil b tl2)
      refine ⟨x, List.mem_cons_of_mem a hx, ?_⟩
      have hlen : (((a :: b :: tl2).length : ℚ)) = (((b :: tl2).length : ℚ)) + 1 := by
        push_cast [List.length_cons]
        ring
      rw [hlen]
      have h50 : MOUSEMOVE_FREQUENCYMS = 50 := rfl
      rw [h50] at hgr h1 ⊢
      linarith

/-- Behavior of a run of move events while a marker is selected and a drag
is in progress: selection, drag flag and geometry are preserved, each move
repositions once and changes nothing but the time of the dragged marker,
only `marker-drag` notifications fire, consecutive notification timestamps
are at least the throttle floor apart (starting from any lower bound `e0` of
the last recorded move time, so in particular from the previous emission),
and every notification timestamp is one of the move times. -/
theorem runMoves_spec (i : ℕ) :
    ∀ (ms : List (ℚ × ℚ)) (s : PluginState) (e0 : ℚ),
      s.selectedMarker = some i → s.dragging = true → e0 ≤ s.lastDragEvent →
      List.Chain (fun a b => a ≤ b) s.lastDragEvent (ms.map Prod.fst) →
      (runOps s (moveOps ms)).1.selectedMarker = some i ∧
      (runOps s (moveOps ms)).1.dragging = true ∧
      (runOps s (moveOps ms)).1.duration = s.duration ∧
      (runOps s (moveOps ms)).1.repositions = s.repositions + ms.length ∧
      (runOps s (moveOps ms)).1.markers.map eraseTime = s.markers.map eraseTime ∧
      (runOps s (moveOps ms)).1.lastDragEvent = (ms.map Prod.fst).getLastD s.lastDragEvent ∧
      (∀ ev ∈ (runOps s (moveOps ms)).2, ∃ t, ev = WsEvent.markerDrag i t) ∧
      List.Chain (fun a b => a + MOUSEMOVE_FREQUENCYMS ≤ b) e0
        (dragTimes (runOps s (moveOps ms)).2) ∧
      (∀ x ∈ dragTimes (runOps s (moveOps ms)).2, x ∈ ms.map Prod.fst) := by
  intro ms
  induction ms with
  | nil =>
    intro s e0 hs hd he hsort
    refine ⟨hs, hd, rfl, rfl, rfl, rfl, ?_, List.Chain.nil, ?_⟩
    · intro ev hev
      simp [moveOps, runOps] at hev
    · intro x hx
      simp [moveOps, runOps, dragTimes] at hx
  | cons tf rest ih =>
    intro s e0 hs hd he hsort
    obtain ⟨t, f⟩ := tf
    obtain ⟨hst, hsort2⟩ :
        s.lastDragEvent ≤ t ∧
          List.Chain (fun a b => a ≤ b) t (rest.map Prod.fst) :=
      List.chain_cons.mp (by simpa using hsort)
    have hstep := onMouseMove_next t f s i hs hd
    have hrun : runOps s (moveOps ((t, f) :: rest))
        = ((runOps (onMouseMove t f s).1 (moveOps rest)).1,
           (onMouseMove t f s).2 ++ (runOps (onMouseMove t f s).1 (moveOps rest)).2) := rfl
    obtain ⟨hsel1, hdrag1, hdur1, hrep1, hmap1, hlde1⟩ :
        (onMouseMove t f s).1.selectedMarker = some i ∧
        (onMouseMove t f s).1.dragging = true ∧
        (onMouseMove t f s).1.duration = s.duration ∧
        (onMouseMove t f s).1.repositions = s.repositions + 1 ∧
        (onMouseMove t f s).1.markers.map eraseTime = s.markers.map eraseTime ∧
        (onMouseMove t f s).1.lastDragEvent = t := by
      rw [hstep]
      exact ⟨hs, hd, rfl, rfl, dragWrite_map_eraseTime s i (f * s.duration), rfl⟩
    by_cases hemit : MOUSEMOVE_FREQUENCYMS ≤ t - s.lastDragEvent
    · have hev1 : (onMouseMove t f s).2 = [WsEvent.markerDrag i t] := by
        rw [hstep]
        simp [hemit]
      obtain ⟨c1, c2, c3, c4, c5, c6, c7, c8, c9⟩ :=
        ih (onMouseMove t f s).1 t hsel1 hdrag1 (le_of_eq hlde1.symm)
          (by rw [hlde1]; exact hsort2)
      rw [hrun]
      refine ⟨c1, c2, c3.trans hdur1, ?_, c5.trans hmap1, ?_, ?_, ?_, ?_⟩
      · rw [c4, hrep1]
        simp [List.length_cons]
        omega
      · rw [c6, hlde1, List.map_cons, List.getLastD_cons]
      · intro ev hev
        rw [hev1] at hev
        rcases List.mem_append.mp hev with h1 | h2
        · exact ⟨t, by simpa using h1⟩
        · exact c7 ev h2
      · rw [hev1, dragTimes_append]
        refine List.chain_cons.mpr ⟨?_, c8⟩
        linarith
      · intro x hx
        rw [hev1, dragTimes_append] at hx
        rcases List.mem_append.mp hx with h1 | h2
        · obtain rfl : x = t := by simpa [dragTimes] using h1
          simp
        · have hx2 := c9 x h2
          simp only [List.map_cons]
          exact List.mem_cons_of_mem _ hx2
    · have hev1 : (onMouseMove t f s).2 = [] := by
        rw [hstep]
        simp [hemit]
      obtain ⟨c1, c2, c3, c4, c5, c6, c7, c8, c9⟩ :=
        ih (onMouseMove t f s).1 e0 hsel1 hdrag1 (by rw [hlde1]; exact he.trans hst)
          (by rw [hlde1]; exact hsort2)
      rw [hrun]
      refine ⟨c1, c2, c3.trans hdur1, ?_, c5.trans hmap1, ?_, ?_, ?_, ?_⟩
      · rw [c4, hrep1]
        simp [List.length_cons]
        omega
      · rw [c6, hlde1, List.map_cons, List.getLastD_cons]
      · intro ev hev
        rw [hev1] at hev
        simp only [List.nil_append] at hev
        exact c7 ev hev
      · rw [hev1]
        simp only [List.nil_append]
        exact c8
      · intro x hx
        rw [hev1] at hx
        simp only [List.nil_append] at hx
        have hx2 := c9 x hx
        simp only [List.map_cons]
        exact List.mem_cons_of_mem _ hx2

/-- Running a concatenation of operation lists runs them in sequence and
concatenates the logs. -/
theorem runOps_append (s : PluginState) (l1 l2 : List Op) :
    runOps s (l1 ++ l2)
      = ((runOps (runOps s l1).1 l2).1,
         (runOps s l1).2 ++ (runOps (runOps s l1).1 l2).2) := by
  induction l1 generalizing s with
  | nil => simp [runOps]
  | cons op rest ih =>
    show runOps s (op :: (rest ++ l2)) = _
    simp only [runOps]
    rw [ih (stepE op s).1]
    simp [List.append_assoc]

/-- C3: during an ongoing drag every move event unconditionally clamps the
proposed time, writes it into the selected marker and triggers a reposition
pass; and on the gesture of one press, five moves spanning less than 200 ms
and one release on a draggable marker with no limits, a `marker-drag` fires
on the first move, consecutive `marker-drag` timestamps are at least the
50 ms throttle floor apart (so each emission is at least 50 ms after the
previous emission), at most three throttled `marker-drag` follow the first,
exactly one `marker-drop` fires, all seven steps of the gesture
(add included) reposition, and the final time is the released position. -/
theorem drag_gesture_spec (p : MarkerParams)
    (d w t1 f1 t2 f2 t3 f3 t4 f4 t5 f5 t6 f6 : ℚ)
    (hdrag : p.draggable = some true) (hlo : p.lowerLimit = none) (hup : p.upperLimit = none)
    (h12 : t1 ≤ t2) (h23 : t2 ≤ t3) (h34 : t3 ≤ t4) (h45 : t4 ≤ t5)
    (hspan : t5 - t1 < 200) :
    (∀ (s : PluginState) (j : ℕ) (now frac : ℚ), s.selectedMarker = some j →
        (onMouseMove now frac s).1.markers = dragWrite s j (frac * s.duration) ∧
        (onMouseMove now frac s).1.repositions = s.repositions + 1) ∧
    (dragTimes (runOps (addMarker p (initState d w))
        (gestureOps t1 f1 t2 f2 t3 f3 t4 f4 t5 f5 t6 f6)).2).head? = some t1 ∧
    List.Chain' (fun a b => a + MOUSEMOVE_FREQUENCYMS ≤ b)
      (dragTimes (runOps (addMarker p (initState d w))
        (gestureOps t1 f1 t2 f2 t3 f3 t4 f4 t5 f5 t6 f6)).2) ∧
    (dragTimes (runOps (addMarker p (initState d w))
        (gestureOps t1 f1 t2 f2 t3 f3 t4 f4 t5 f5 t6 f6)).2).length ≤ 4 ∧
    dropEvents (runOps (addMarker p (initState d w))
        (gestureOps t1 f1 t2 f2 t3 f3 t4 f4 t5 f5 t6 f6)).2 = [WsEvent.markerDrop 0 t6] ∧
    (runOps (addMarker p (initState d w))
        (gestureOps t1 f1 t2 f2 t3 f3 t4 f4 t5 f5 t6 f6)).1.repositions = 7 ∧
    ((runOps (addMarker p (initState d w))
        (gestureOps t1 f1 t2 f2 t3 f3 t4 f4 t5 f5 t6 f6)).1.markers[0]?).map Marker.time
      = some (f6 * d) := by
  have hmove : ∀ (s : PluginState) (j : ℕ) (now frac : ℚ), s.selectedMarker = some j →
      (onMouseMove now frac s).1.markers = dragWrite s j (frac * s.duration) ∧
      (onMouseMove now frac s).1.repositions = s.repositions + 1 := by
    intro s j now frac hsj
    cases hdj : s.dragging with
    | false => rw [onMouseMove_first now frac s j hsj hdj]; exact ⟨rfl, rfl⟩
    | true => rw [onMouseMove_next now frac s j hsj hdj]; exact ⟨rfl, rfl⟩
  set S0v : PluginState :=
    { markers := [mkMarker p], selectedMarker := none, dragging := false,
      lastDragEvent := 0, mouseEventsAdded := true, pendingDeselect := false,
      repositions := 1, duration := d, elementWidth := w } with hS0v
  have hS0 : addMarker p (initState d w) = S0v := by
    rw [hS0v]
    simp [addMarker, initState, hdrag]
  set S1v : PluginState := { S0v with selectedMarker := some 0 } with hS1v
  set S2v : PluginState :=
    { S1v with
      dragging := true
      lastDragEvent := t1
      markers := dragWrite S1v 0 (f1 * S1v.duration)
      repositions := S1v.repositions + 1 } with hS2v
  have e1 : stepE (Op.mouseDown 0) S0v = (S1v, []) := by
    simp only [stepE]
    rw [hS1v]
    simp [markerMouseDown, hS0v, mkMarker, hdrag]
  have e2 : stepE (Op.mouseMove t1 f1) S1v = (S2v, [WsEvent.markerDrag 0 t1]) := by
    simp only [stepE]
    exact onMouseMove_first t1 f1 S1v 0 rfl rfl
  have h01 : runOps S0v [Op.mouseDown 0, Op.mouseMove t1 f1]
      = (S2v, [WsEvent.markerDrag 0 t1]) := by
    simp [runOps, e1, e2]
  have hchain : List.Chain (fun a b => a ≤ b) S2v.lastDragEvent
      ([(t2, f2), (t3, f3), (t4, f4), (t5, f5)].map Prod.fst) := by
    show List.Chain (fun a b => a ≤ b) t1 [t2, t3, t4, t5]
    exact List.Chain.cons h12 (List.Chain.cons h23
      (List.Chain.cons h34 (List.Chain.cons h45 List.Chain.nil)))
  obtain ⟨c1, c2, c3, c4, c5, c6, c7, c8, c9⟩ :=
    runMoves_spec 0 [(t2, f2), (t3, f3), (t4, f4), (t5, f5)] S2v t1 rfl rfl
      (le_refl t1) hchain
  have e3 : stepE (Op.mouseUp t6 f6)
        (runOps S2v (moveOps [(t2, f2), (t3, f3), (t4, f4), (t5, f5)])).1
      = ({ (runOps S2v (moveOps [(t2, f2), (t3, f3), (t4, f4), (t5, f5)])).1 with
            pendingDeselect := true
            markers := dragWrite
              (runOps S2v (moveOps [(t2, f2), (t3, f3), (t4, f4), (t5, f5)])).1 0
              (f6 * (runOps S2v (moveOps [(t2, f2), (t3, f3), (t4, f4), (t5, f5)])).1.duration)
            repositions :=
              (runOps S2v (moveOps [(t2, f2), (t3, f3), (t4, f4), (t5, f5)])).1.repositions + 1 },
          [WsEvent.markerDrop 0 t6]) := by
    simp only [stepE]
    exact onMouseUp_drop t6 f6 _ 0 c1 c2
  have h3run : runOps
        (runOps S2v (moveOps [(t2, f2), (t3, f3), (t4, f4), (t5, f5)])).1 [Op.mouseUp t6 f6]
      = ({ (runOps S2v (moveOps [(t2, f2), (t3, f3), (t4, f4), (t5, f5)])).1 with
            pendingDeselect := true
            markers := dragWrite
              (runOps S2v (moveOps [(t2, f2), (t3, f3), (t4, f4), (t5, f5)])).1 0
              (f6 * (runOps S2v (moveOps [(t2, f2), (t3, f3), (t4, f4), (t5, f5)])).1.duration)
            repositions :=
              (runOps S2v (moveOps [(t2, f2), (t3, f3), (t4, f4), (t5, f5)])).1.repositions + 1 },
          [WsEvent.markerDrop 0 t6]) := by
    rw [show runOps
        (runOps S2v (moveOps [(t2, f2), (t3, f3), (t4, f4), (t5, f5)])).1 [Op.mouseUp t6 f6]
      = ((stepE (Op.mouseUp t6 f6)
            (runOps S2v (moveOps [(t2, f2), (t3, f3), (t4, f4), (t5, f5)])).1).1,
         (stepE (Op.mouseUp t6 f6)
            (runOps S2v (moveOps [(t2, f2), (t3, f3), (t4, f4), (t5, f5)])).1).2 ++ []) from rfl]
    rw [e3]
    rfl
  have hdecomp : gestureOps t1 f1 t2 f2 t3 f3 t4 f4 t5 f5 t6 f6
      = [Op.mouseDown 0, Op.mouseMove t1 f1]
        ++ (moveOps [(t2, f2), (t3, f3), (t4, f4), (t5, f5)] ++ [Op.mouseUp t6 f6]) := rfl
  have hsplitB0 := runOps_append S2v
    (moveOps [(t2, f2), (t3, f3), (t4, f4), (t5, f5)]) [Op.mouseUp t6 f6]
  rw [h3run] at hsplitB0
  have hsplitB : runOps S2v
        (moveOps [(t2, f2), (t3, f3), (t4, f4), (t5, f5)] ++ [Op.mouseUp t6 f6])
      = ({ (runOps S2v (moveOps [(t2, f2), (t3, f3), (t4, f4), (t5, f5)])).1 with
            pendingDeselect := true
            markers := dragWrite
              (runOps S2v (moveOps [(t2, f2), (t3, f3), (t4, f4), (t5, f5)])).1 0
              (f6 * (runOps S2v (moveOps [(t2, f2), (t3, f3), (t4, f4), (t5, f5)])).1.duration)
            repositions :=
              (runOps S2v (moveOps [(t2, f2), (t3, f3), (t4, f4), (t5, f5)])).1.repositions + 1 },
          (runOps S2v (moveOps [(t2, f2), (t3, f3), (t4, f4), (t5, f5)])).2
            ++ [WsEvent.markerDrop 0 t6]) := hsplitB0
  have hsplitA0 := runOps_append S0v [Op.mouseDown 0, Op.mouseMove t1 f1]
    (moveOps [(t2, f2), (t3, f3), (t4, f4), (t5, f5)] ++ [Op.mouseUp t6 f6])
  rw [h01] at hsplitA0
  have hsplitA : runOps S0v
        ([Op.mouseDown 0, Op.mouseMove t1 f1]
          ++ (moveOps [(t2, f2), (t3, f3), (t4, f4), (t5, f5)] ++ [Op.mouseUp t6 f6]))
      = ((runOps S2v
            (moveOps [(t2, f2), (t3, f3), (t4, f4), (t5, f5)] ++ [Op.mouseUp t6 f6])).1,
         [WsEvent.markerDrag 0 t1]
          ++ (runOps S2v
            (moveOps [(t2, f2), (t3, f3), (t4, f4), (t5, f5)] ++ [Op.mouseUp t6 f6])).2) :=
    hsplitA0
  rw [hsplitB] at hsplitA
  rw [hS0, hdecomp, hsplitA]
  have hdur3 : (runOps S2v (moveOps [(t2, f2), (t3, f3), (t4, f4), (t5, f5)])).1.duration = d := c3
  have hS2map : S2v.markers.map eraseTime = [eraseTime (mkMarker p)] := by
    show (dragWrite S1v 0 (f1 * S1v.duration)).map eraseTime = _
    rw [dragWrite_map_eraseTime S1v 0 (f1 * S1v.duration)]
    rfl
  have hmap3 : (runOps S2v (moveOps [(t2, f2), (t3, f3), (t4, f4), (t5, f5)])).1.markers.map
      eraseTime = [eraseTime (mkMarker p)] := c5.trans hS2map
  have hlen3 : (runOps S2v (moveOps [(t2, f2), (t3, f3), (t4, f4), (t5, f5)])).1.markers.length
      = 1 := by
    have hl := congrArg List.length hmap3
    simpa using hl
  obtain ⟨m3, hm3eq, hm3erase⟩ :
      ∃ m3, (runOps S2v (moveOps [(t2, f2), (t3, f3), (t4, f4), (t5, f5)])).1.markers[0]?
          = some m3 ∧ eraseTime m3 = eraseTime (mkMarker p) := by
    cases hml : (runOps S2v (moveOps [(t2, f2), (t3, f3), (t4, f4), (t5, f5)])).1.markers with
    | nil => rw [hml] at hlen3; simp at hlen3
    | cons a tl =>
      refine ⟨a, by simp, ?_⟩
      rw [hml] at hmap3
      simp only [List.map_cons, List.cons.injEq] at hmap3
      exact hmap3.1
  have hm3lo : m3.lowerLimit = none := by
    have h' : m3.lowerLimit = p.lowerLimit := congrArg Marker.lowerLimit hm3erase
    exact h'.trans hlo
  have hm3up : m3.upperLimit = none := by
    have h' : m3.upperLimit = p.upperLimit := congrArg Marker.upperLimit hm3erase
    exact h'.trans hup
  have hlen25 : (dragTimes (runOps S2v
      (moveOps [(t2, f2), (t3, f3), (t4, f4), (t5, f5)])).2).length ≤ 3 := by
    by_contra hcon
    push_neg at hcon
    have hne : dragTimes (runOps S2v
        (moveOps [(t2, f2), (t3, f3), (t4, f4), (t5, f5)])).2 ≠ [] := by
      intro hnil
      rw [hnil] at hcon
      simp at hcon
    obtain ⟨x, hx, hgr⟩ := chain50_growth _ t1 c8 hne
    have hxmem := c9 x hx
    have hx5 : x ≤ t5 := by
      simp at hxmem
      rcases hxmem with rfl | rfl | rfl | rfl
      · linarith
      · linarith
      · linarith
      · linarith
    have hlen4 : (4 : ℚ) ≤ ((dragTimes (runOps S2v
        (moveOps [(t2, f2), (t3, f3), (t4, f4), (t5, f5)])).2).length : ℚ) := by
      exact_mod_cast hcon
    have hF : MOUSEMOVE_FREQUENCYMS = 50 := rfl
    rw [hF] at hgr
    linarith
  refine ⟨hmove, ?_, ?_, ?_, ?_, ?_, ?_⟩
  · rw [dragTimes_append]
    rfl
  · rw [dragTimes_append, dragTimes_append]
    show List.Chain' (fun a b => a + MOUSEMOVE_FREQUENCYMS ≤ b)
      (t1 :: (dragTimes (runOps S2v
        (moveOps [(t2, f2), (t3, f3), (t4, f4), (t5, f5)])).2
          ++ dragTimes [WsEvent.markerDrop 0 t6]))
    have hdropnil : dragTimes [WsEvent.markerDrop 0 t6] = [] := rfl
    rw [hdropnil, List.append_nil]
    exact c8
  · rw [dragTimes_append, dragTimes_append]
    have hdropnil : dragTimes [WsEvent.markerDrop 0 t6] = [] := rfl
    rw [hdropnil, List.append_nil]
    show (t1 :: dragTimes (runOps S2v
      (moveOps [(t2, f2), (t3, f3), (t4, f4), (t5, f5)])).2).length ≤ 4
    simp only [List.length_cons]
    omega
  · rw [dropEvents_append, dropEvents_append]
    have hd1 : dropEvents [WsEvent.markerDrag 0 t1] = [] := rfl
    have hd2 : dropEvents (runOps S2v
        (moveOps [(t2, f2), (t3, f3), (t4, f4), (t5, f5)])).2 = [] :=
      dropEvents_nil_of_drags 0 _ c7
    rw [hd1, hd2]
    rfl
  · show (runOps S2v (moveOps [(t2, f2), (t3, f3), (t4, f4), (t5, f5)])).1.repositions + 1 = 7
    rw [c4]
    rfl
  · show ((dragWrite (runOps S2v (moveOps [(t2, f2), (t3, f3), (t4, f4), (t5, f5)])).1 0
        (f6 * (runOps S2v (moveOps [(t2, f2), (t3, f3), (t4, f4), (t5, f5)])).1.duration))[0]?).map
          Marker.time = some (f6 * d)
    have hdw : dragWrite (runOps S2v (moveOps [(t2, f2), (t3, f3), (t4, f4), (t5, f5)])).1 0
          (f6 * (runOps S2v (moveOps [(t2, f2), (t3, f3), (t4, f4), (t5, f5)])).1.duration)
        = (runOps S2v (moveOps [(t2, f2), (t3, f3), (t4, f4), (t5, f5)])).1.markers.set 0
            { m3 with
              time := checkLimits
                (f6 * (runOps S2v (moveOps [(t2, f2), (t3, f3), (t4, f4), (t5, f5)])).1.duration)
                m3 } := by
      show (runOps S2v (moveOps [(t2, f2), (t3, f3), (t4, f4), (t5, f5)])).1.markers.set 0
          { (((runOps S2v (moveOps [(t2, f2), (t3, f3), (t4, f4), (t5, f5)])).1.markers[0]?).getD
              default) with
            time := checkLimits
              (f6 * (runOps S2v (moveOps [(t2, f2), (t3, f3), (t4, f4), (t5, f5)])).1.duration)
              (((runOps S2v
                  (moveOps [(t2, f2), (t3, f3), (t4, f4), (t5, f5)])).1.markers[0]?).getD
                default) } = _
      rw [hm3eq]
      rfl
    rw [hdw]
    have hset : ((runOps S2v (moveOps [(t2, f2), (t3, f3), (t4, f4), (t5, f5)])).1.markers.set 0
          { m3 with
            time := checkLimits
              (f6 * (runOps S2v (moveOps [(t2, f2), (t3, f3), (t4, f4), (t5, f5)])).1.duration)
              m3 })[0]?
        = some { m3 with
            time := checkLimits
              (f6 * (runOps S2v (moveOps [(t2, f2), (t3, f3), (t4, f4), (t5, f5)])).1.duration)
              m3 } :=
      List.getElem?_set_eq_of_lt _ (by rw [hlen3]; norm_num)
    rw [hset]
    show some (checkLimits
        (f6 * (runOps S2v (moveOps [(t2, f2), (t3, f3), (t4, f4), (t5, f5)])).1.duration) m3)
      = some (f6 * d)
    rw [checkLimits_no_limits _ m3 hm3lo hm3up, hdur3]

/-- Witness for C3 on the concrete gesture with moves at 0, 10, 20, 30 and
40 ms and release at 50 ms: exactly one `marker-drop` fires and at most four
`marker-drag` notifications fire in total. -/
theorem drag_gesture_spec_witness :
    dropEvents (runOps (addMarker paramsDraggable (initState 20 1000))
        (gestureOps 0 (1 / 2) 10 (1 / 2) 20 (1 / 2) 30 (1 / 2) 40 (1 / 2) 50 (1 / 2))).2
      = [WsEvent.markerDrop 0 50] ∧
    (dragTimes (runOps (addMarker paramsDraggable (initState 20 1000))
        (gestureOps 0 (1 / 2) 10 (1 / 2) 20 (1 / 2) 30 (1 / 2) 40 (1 / 2) 50 (1 / 2))).2).length
      ≤ 4 := by
  have h := drag_gesture_spec paramsDraggable 20 1000 0 (1 / 2) 10 (1 / 2) 20 (1 / 2) 30 (1 / 2)
    40 (1 / 2) 50 (1 / 2) rfl rfl rfl (by norm_num) (by norm_num) (by norm_num) (by norm_num)
    (by norm_num)
  exact ⟨h.2.2.2.2.1, h.2.2.2.1⟩

end Markers
